import Mathlib

/-!
# Mod-configuration reconciliation of `uibinder.js`

A shallow embedding of the three functions of `app/assets/js/scripts/uibinder.js` that
reconcile the stored mod configuration with the distribution index:

* `scanOptionalSubModules`  (lines 249-282),
* `mergeModConfiguration`   (lines 293-324),
* the per-server body of `syncModConfigurations` (lines 165-236), called `reconcileServer`.

Conventions of the embedding.

* A JavaScript object used as a map (`mods = {}`, `mods[k] = v`, `Object.keys(mods)`) is an
  association list in insertion order: `objSet` overwrites an existing key in place and appends
  a new key, `objGet` reads a key, `objKeys` lists the keys.  Module ids are taken to be ordinary
  property names (not integer-like, not names found on `Object.prototype`).
* A well-formed configuration value is `ConfigValue`: a boolean (`flag`) or an object
  `{mods, value?}` (`group`).  `typeof v === 'object'` is `ConfigValue.isObject`.
* `mergeModConfiguration` mutates and returns its argument `n`; `n` is always a value freshly
  built by `scanOptionalSubModules`, so the mutation is modelled by returning the updated value.
* Prior configurations of arbitrary runtime shape are values of `JVal`, and
  `mergeModConfigurationDyn` is the same function on them, with the `TypeError` JavaScript raises
  when a property of `undefined` or `null` is read.
-/

namespace UiBinder

/-! ## Data model -/

/-- Modelled from the spec: the module kinds `DistroManager.Types` (the file `distromanager.js`
is not part of the sources).  The three kinds the reconciler tests for are kept apart, every
other kind is `Other`. -/
inductive ModuleType where
  | ForgeMod
  | LiteMod
  | LiteLoader
  | Other
  deriving DecidableEq, Repr

/-- Modelled from the spec: the `Module` class of `distromanager.js` (not part of the sources),
reduced to what the reconciler reads: `getVersionlessID()`, `getType()`,
`getRequired().isRequired()`, `getRequired().isDefault()` and `getSubModules()`
(an ordered sequence, or `null`). -/
inductive Module where
  | mk (id : String) (type : ModuleType) (isRequired : Bool) (isDefault : Bool)
      (subModules : Option (List Module))

namespace Module

/-- The call `mdl.getVersionlessID()`. -/
def getVersionlessID : Module → String
  | mk id _ _ _ _ => id

/-- The call `mdl.getType()`. -/
def getType : Module → ModuleType
  | mk _ t _ _ _ => t

/-- The call `mdl.getRequired().isRequired()`. -/
def isRequired : Module → Bool
  | mk _ _ r _ _ => r

/-- The call `mdl.getRequired().isDefault()`. -/
def isDefault : Module → Bool
  | mk _ _ _ d _ => d

/-- The call `mdl.getSubModules()`. -/
def getSubModules : Module → Option (List Module)
  | mk _ _ _ _ s => s

end Module

/-- Modelled from the spec: `hasSubModules()` of the `Module` class (not part of the sources):
the module has at least one sub-module. -/
def subModulesPresent : Option (List Module) → Bool
  | some (_ :: _) => true
  | _ => false

/-- The call `mdl.hasSubModules()`. -/
def Module.hasSubModules (m : Module) : Bool :=
  subModulesPresent m.getSubModules

/-- The test `type === ForgeMod || type === LiteMod || type === LiteLoader`. -/
def isOptionalType (t : ModuleType) : Bool :=
  t == .ForgeMod || t == .LiteMod || t == .LiteLoader

/-- A configuration value: a boolean, or an object `{mods, value?}`. -/
inductive ConfigValue where
  | flag (b : Bool)
  | group (value : Option Bool) (mods : List (String × ConfigValue))

/-- The `mods` object of one server: module id to configuration value. -/
abbrev ModMap := List (String × ConfigValue)

/-- The test `typeof v === 'object'` on a configuration value. -/
def ConfigValue.isObject : ConfigValue → Bool
  | .flag _ => false
  | .group _ _ => true

/-- The test `typeof v === 'boolean'` on a configuration value. -/
def ConfigValue.isBoolean : ConfigValue → Bool
  | .flag _ => true
  | .group _ _ => false

mutual
/-- Decidable equality of configuration values. -/
def ConfigValue.decEq : (a b : ConfigValue) → Decidable (a = b)
  | .flag a, .flag b =>
      if h : a = b then isTrue (by rw [h]) else isFalse (fun e => h (by injection e))
  | .flag _, .group _ _ => isFalse (fun e => by injection e)
  | .group _ _, .flag _ => isFalse (fun e => by injection e)
  | .group v ms, .group w ns =>
      if h : v = w then
        match ConfigValue.decEqMods ms ns with
        | isTrue h2 => isTrue (by rw [h, h2])
        | isFalse h2 => isFalse (fun e => h2 (by injection e))
      else isFalse (fun e => h (by injection e))
/-- Decidable equality of `mods` maps. -/
def ConfigValue.decEqMods : (a b : List (String × ConfigValue)) → Decidable (a = b)
  | [], [] => isTrue rfl
  | [], _ :: _ => isFalse (fun e => by injection e)
  | _ :: _, [] => isFalse (fun e => by injection e)
  | (k, v) :: as, (l, w) :: bs =>
      if h : k = l then
        match ConfigValue.decEq v w with
        | isTrue h2 =>
            match ConfigValue.decEqMods as bs with
            | isTrue h3 => isTrue (by rw [h, h2, h3])
            | isFalse h3 => isFalse (fun e => h3 (by injection e))
        | isFalse h2 => isFalse (fun e => h2 (by injection e with e1 _; injection e1))
      else isFalse (fun e => h (by injection e with e1 _; injection e1))
end

instance : DecidableEq ConfigValue := ConfigValue.decEq

/-! ## JavaScript objects as association lists -/

/-- The read `obj[key]`; `none` when the key is not a property of the object. -/
def objGet {β : Type} : List (String × β) → String → Option β
  | [], _ => none
  | (k, v) :: rest, key => if k = key then some v else objGet rest key

/-- The assignment `obj[key] = v`: an existing property keeps its place, a new one is added
at the end. -/
def objSet {β : Type} : List (String × β) → String → β → List (String × β)
  | [], key, v => [(key, v)]
  | (k, w) :: rest, key, v =>
      if k = key then (k, v) :: rest else (k, w) :: objSet rest key v

/-- The call `Object.keys(obj)`. -/
def objKeys {β : Type} (obj : List (String × β)) : List String :=
  obj.map Prod.fst

/-! ## `scanOptionalSubModules` -/

mutual
/-- The function `scanOptionalSubModules(mdls, origin)`: a boolean when no optional sub-module
is found, a configuration object otherwise. -/
def scanOptionalSubModules : Option (List Module) → Module → ConfigValue
  | some mdls, origin =>
      let mods := scanLoop mdls []
      if (objKeys mods).length > 0 then
        .group (if !origin.isRequired then some origin.isDefault else none) mods
      else .flag origin.isDefault
  | none, origin => .flag origin.isDefault
/-- The loop `for(let mdl of mdls)` of `scanOptionalSubModules`, threading the object `mods`. -/
def scanLoop : List Module → ModMap → ModMap
  | [], mods => mods
  | .mk id type req dflt subs :: rest, mods =>
      if isOptionalType type then
        if !req then
          scanLoop rest (objSet mods id (scanOptionalSubModules subs (.mk id type req dflt subs)))
        else
          if subModulesPresent subs then
            let v := scanOptionalSubModules subs (.mk id type req dflt subs)
            if v.isObject then scanLoop rest (objSet mods id v) else scanLoop rest mods
          else scanLoop rest mods
      else scanLoop rest mods
end

/-! ## `mergeModConfiguration` -/

mutual
/-- The function `mergeModConfiguration(o, n, nReq = false)` on well-formed values. -/
def mergeModConfiguration : ConfigValue → ConfigValue → Bool → ConfigValue
  | .flag b, .flag _, _ => .flag b
  | .flag b, .group v mods, nReq => .group (if !nReq then some b else v) mods
  | .group ov _, .flag _, _ => .flag (match ov with | some b => b | none => true)
  | .group ov omods, .group v mods, nReq =>
      .group (if !nReq then some (match ov with | some b => b | none => true) else v)
        (mergeLoop omods mods)
/-- The loop over `Object.keys(n.mods)` of `mergeModConfiguration`, as one pass over the
entries of `n.mods`: the entry of a key that `o.mods` has is replaced by the recursive merge,
called without its third argument (which then is `false`). -/
def mergeLoop : ModMap → ModMap → ModMap
  | _, [] => []
  | omods, (mod, nv) :: rest =>
      (match objGet omods mod with
        | some ov => (mod, mergeModConfiguration ov nv false)
        | none => (mod, nv)) :: mergeLoop omods rest
end

/-! ## The per-server body of `syncModConfigurations` -/

/-- One pass of the loop over the modules of a server when a configuration is stored
(`cfg != null`, lines 173-203). -/
def syncStepOld (modsOld : ModMap) (mods : ModMap) (mdl : Module) : ModMap :=
  if isOptionalType mdl.getType then
    if !mdl.isRequired then
      match objGet modsOld mdl.getVersionlessID with
      | none => objSet mods mdl.getVersionlessID (scanOptionalSubModules mdl.getSubModules mdl)
      | some o =>
          objSet mods mdl.getVersionlessID
            (mergeModConfiguration o (scanOptionalSubModules mdl.getSubModules mdl) false)
    else
      if mdl.hasSubModules then
        let v := scanOptionalSubModules mdl.getSubModules mdl
        if v.isObject then
          match objGet modsOld mdl.getVersionlessID with
          | none => objSet mods mdl.getVersionlessID v
          | some o => objSet mods mdl.getVersionlessID (mergeModConfiguration o v true)
        else mods
      else mods
  else mods

/-- One pass of the loop over the modules of a server when no configuration is stored
(`cfg == null`, lines 210-229). -/
def syncStepNew (mods : ModMap) (mdl : Module) : ModMap :=
  if isOptionalType mdl.getType then
    if !mdl.isRequired then
      objSet mods mdl.getVersionlessID (scanOptionalSubModules mdl.getSubModules mdl)
    else
      if mdl.hasSubModules then
        let v := scanOptionalSubModules mdl.getSubModules mdl
        if v.isObject then objSet mods mdl.getVersionlessID v else mods
      else mods
  else mods

/-- The body of the loop over the servers in `syncModConfigurations`: from the modules of a
server and the stored configuration (`cfg.mods`, or `none` when `cfg` is `null`) to the `mods`
object pushed to `syncedCfgs`. -/
def reconcileServer (mdls : List Module) (cfg : Option ModMap) : ModMap :=
  match cfg with
  | some modsOld => mdls.foldl (syncStepOld modsOld) []
  | none => mdls.foldl syncStepNew []

/-- The value stored for a module of an optional type by each of the three loops when nothing
is stored for it yet: `none` when the loop makes no assignment. -/
def buildDefault (mdl : Module) : Option ConfigValue :=
  if !mdl.isRequired then some (scanOptionalSubModules mdl.getSubModules mdl)
  else
    if mdl.hasSubModules then
      let v := scanOptionalSubModules mdl.getSubModules mdl
      if v.isObject then some v else none
    else none

/-! ## Example modules and configurations -/

/-- A module of kind `ForgeMod` without sub-modules. -/
def leaf (id : String) (req dflt : Bool) : Module :=
  .mk id .ForgeMod req dflt (some [])

/-- A module of kind `ForgeMod` with sub-modules. -/
def node (id : String) (req dflt : Bool) (subs : List Module) : Module :=
  .mk id .ForgeMod req dflt (some subs)

/-! ## Shapes, paths and auxiliary views of the loops -/

/-- The `mods` object of a configuration value (empty for a boolean). -/
def ConfigValue.mods : ConfigValue → ModMap
  | .flag _ => []
  | .group _ ms => ms

mutual
/-- Two configuration values have the same shape: both booleans, or both objects whose `mods`
have the same keys in the same order and values of the same shape. -/
def sameShape : ConfigValue → ConfigValue → Bool
  | .flag _, .flag _ => true
  | .group _ ms, .group _ ns => sameShapeMods ms ns
  | _, _ => false
/-- Two `mods` objects have the same keys in the same order and values of the same shape. -/
def sameShapeMods : ModMap → ModMap → Bool
  | [], [] => true
  | (k, v) :: ms, (l, w) :: ns => decide (k = l) && sameShape v w && sameShapeMods ms ns
  | _, _ => false
end

/-- The configuration value found in `v` by following the module ids of a path through the
`mods` objects. -/
def ConfigValue.atPath : ConfigValue → List String → Option ConfigValue
  | v, [] => some v
  | .flag _, _ :: _ => none
  | .group _ ms, k :: p =>
      match objGet ms k with
      | some w => w.atPath p
      | none => none

/-- The configuration value found in a server configuration under a top-level module id and a
path below it. -/
def cfgAt (cfg : ModMap) (k : String) (p : List String) : Option ConfigValue :=
  match objGet cfg k with
  | some w => w.atPath p
  | none => none

/-- The loop of `mergeModConfiguration` as a map over the entries of `n.mods`. -/
def mergeEntry (omods : ModMap) (mod : String) (nv : ConfigValue) : ConfigValue :=
  match objGet omods mod with
  | some ov => mergeModConfiguration ov nv false
  | none => nv

/-- One pass of the loop `for(let i=0; i<newMods.length; i++)` of `mergeModConfiguration`,
as the source writes it: a read of `o.mods[mod]`, and when it is there a read of `n.mods[mod]`
and the assignment of the merged value to `n.mods[mod]`. -/
def mergeLoopStep (omods : ModMap) (nmods : ModMap) (mod : String) : ModMap :=
  match objGet omods mod with
  | some ov =>
      match objGet nmods mod with
      | some nv => objSet nmods mod (mergeModConfiguration ov nv false)
      | none => nmods
  | none => nmods

/-- The module puts an entry into the `mods` object of the loop that visits it: it is of an
optional type and is either not required or has a configuration object as its default. -/
def emits (mdl : Module) : Bool :=
  isOptionalType mdl.getType
    && (!mdl.isRequired || (scanOptionalSubModules mdl.getSubModules mdl).isObject)

/-- The last module of the list that puts an entry under the id `key`: the module whose
assignment `mods[key] = ...` is the one that stays. -/
def lastEmitter (mdls : List Module) (key : String) : Option Module :=
  mdls.reverse.find? (fun m => emits m && decide (m.getVersionlessID = key))

/-- The sub-modules that put an entry into the `mods` object of their parent. -/
def trackedChildren (subs : Option (List Module)) : List Module :=
  (subs.getD []).filter emits

/-- Example module tree of the specification: `A` (optional, default `false`) with the
sub-modules `B` (required, no sub-modules) and `C` (optional, default `true`). -/
def exampleA : Module :=
  node "A" false false [leaf "B" true true, leaf "C" false true]

/-- A required module whose only sub-module is a required module without sub-modules. -/
def exampleRequiredParent : Module :=
  node "A" true true [leaf "B" true true]

/-- A configuration object without a `value` field. -/
def ConfigValue.lacksValue : ConfigValue → Bool
  | .group none _ => true
  | _ => false

/-- What the loop of the `cfg != null` branch stores for a top-level id whose fresh value is
`fresh`: the fresh value when the old configuration has no entry for the id, its merge with
the old entry otherwise (as a required module exactly when the fresh object lacks `value`). -/
def topMerge (modsOld : ModMap) (key : String) (fresh : ConfigValue) : ConfigValue :=
  match objGet modsOld key with
  | some o => mergeModConfiguration o fresh fresh.lacksValue
  | none => fresh

/-- A server with one required top-level module `A` that has an optional sub-module `C`. -/
def exampleRequiredTop : List Module :=
  [node "A" true true [leaf "C" false true]]

/-- A prior configuration of the shape of the fresh one of `exampleRequiredTop`, in which the
object of `A` holds `value: false`. -/
def exampleRequiredTopOld : ModMap :=
  [("A", .group (some false) [("C", .flag false)])]

/-- A server with one optional top-level module `A` that has an optional sub-module `C`. -/
def exampleOptionalTop : List Module :=
  [node "A" false true [leaf "C" false true]]

/-- A prior configuration of `exampleOptionalTop` in which the user switched off both `A` and
`C`. -/
def exampleOptionalTopOld : ModMap :=
  [("A", .group (some false) [("C", .flag false)])]

/-- A server with one optional top-level module `A`, whose sub-module `B` is required and has
an optional sub-module `C`. -/
def exampleNestedRequired : List Module :=
  [node "A" false true [node "B" true true [leaf "C" false true]]]

/-- A prior configuration of `exampleNestedRequired` in which the user switched off `C`. -/
def exampleNestedRequiredOld : ModMap :=
  [("A", .group (some true) [("B", .group none [("C", .flag false)])])]

/-! ## Prior values of arbitrary runtime shape -/

/-- A JavaScript value as it can come out of the stored configuration file. -/
inductive JVal where
  | undefined
  | null
  | bool (b : Bool)
  | num (n : Int)
  | str (s : String)
  | obj (fields : List (String × JVal))

/-- The exception raised by reading a property of `undefined` or `null`. -/
inductive JsError where
  | typeError
  deriving DecidableEq, Repr

/-- The operator `typeof`. -/
def JVal.typeof : JVal → String
  | .undefined => "undefined"
  | .null => "object"
  | .bool _ => "boolean"
  | .num _ => "number"
  | .str _ => "string"
  | .obj _ => "object"

/-- The property read `x[key]`: a `TypeError` on `undefined` and `null`, the own property of an
object (or `undefined`), and `undefined` on a boolean, a number or a string. -/
def JVal.getProp : JVal → String → Except JsError JVal
  | .undefined, _ => .error .typeError
  | .null, _ => .error .typeError
  | .obj fields, key =>
      match objGet fields key with
      | some v => .ok v
      | none => .ok .undefined
  | _, _ => .ok .undefined

/-- The test `x != null`. -/
def JVal.notNullish : JVal → Bool
  | .undefined => false
  | .null => false
  | _ => true

mutual
/-- A configuration value as a JavaScript value. -/
def ConfigValue.toJVal : ConfigValue → JVal
  | .flag b => .bool b
  | .group (some b) ms => .obj [("mods", .obj (ConfigValue.toJValMods ms)), ("value", .bool b)]
  | .group none ms => .obj [("mods", .obj (ConfigValue.toJValMods ms))]
/-- A `mods` object as the fields of a JavaScript object. -/
def ConfigValue.toJValMods : ModMap → List (String × JVal)
  | [] => []
  | (k, v) :: ms => (k, ConfigValue.toJVal v) :: ConfigValue.toJValMods ms
end

mutual
/-- The function `mergeModConfiguration(o, n, nReq)` for an old value `o` of any runtime shape
and a fresh value `n` built by `scanOptionalSubModules`. -/
def mergeModConfigurationDyn : JVal → ConfigValue → Bool → Except JsError JVal
  | o, .flag d, _ =>
      if o.typeof = "boolean" then .ok o
      else if o.typeof = "object" then
        match o.getProp "value" with
        | .error e => .error e
        | .ok ov => .ok (if ov.typeof ≠ "undefined" then ov else .bool true)
      else .ok (.bool d)
  | o, .group v mods, nReq =>
      if o.typeof = "boolean" then
        if !nReq then .ok (.obj [("mods", .obj (ConfigValue.toJValMods mods)), ("value", o)])
        else .ok (ConfigValue.toJVal (.group v mods))
      else if o.typeof = "object" then
        let value : Except JsError (List (String × JVal)) :=
          if !nReq then
            match o.getProp "value" with
            | .error e => .error e
            | .ok ov => .ok [("value", if ov.typeof ≠ "undefined" then ov else .bool true)]
          else
            match v with
            | some b => .ok [("value", .bool b)]
            | none => .ok []
        match value with
        | .error e => .error e
        | .ok valueField =>
            match mergeLoopDyn o mods with
            | .error e => .error e
            | .ok mods' => .ok (.obj (("mods", .obj mods') :: valueField))
      else .ok (ConfigValue.toJVal (.group v mods))
/-- The loop over `Object.keys(n.mods)` of `mergeModConfiguration` for an old value of any
runtime shape. -/
def mergeLoopDyn : JVal → ModMap → Except JsError (List (String × JVal))
  | _, [] => .ok []
  | o, (mod, nv) :: rest =>
      match o.getProp "mods" with
      | .error e => .error e
      | .ok omods =>
          match omods.getProp mod with
          | .error e => .error e
          | .ok ov =>
              let merged : Except JsError JVal :=
                if ov.notNullish then mergeModConfigurationDyn ov nv false
                else .ok (ConfigValue.toJVal nv)
              match merged with
              | .error e => .error e
              | .ok r =>
                  match mergeLoopDyn o rest with
                  | .error e => .error e
                  | .ok rest' => .ok ((mod, r) :: rest')
end

/-! ## Theorems -/

/-! ### Objects -/

theorem objGet_map_snd {β γ : Type} (f : String → β → γ) (obj : List (String × β))
    (key : String) :
    objGet (obj.map (fun e => (e.1, f e.1 e.2))) key = (objGet obj key).map (f key) := by
  induction obj with
  | nil => rfl
  | cons e rest ih =>
    obtain ⟨k, v⟩ := e
    by_cases h : k = key
    · subst h; simp [objGet]
    · simp [objGet, h, ih]

theorem objSet_map_snd {β γ : Type} (f : String → β → γ) (obj : List (String × β))
    (key : String) (v : β) :
    objSet (obj.map (fun e => (e.1, f e.1 e.2))) key (f key v)
      = (objSet obj key v).map (fun e => (e.1, f e.1 e.2)) := by
  induction obj with
  | nil => rfl
  | cons e rest ih =>
    obtain ⟨k, w⟩ := e
    by_cases h : k = key
    · subst h; simp [objSet]
    · simp [objSet, h, ih]

theorem objGet_eq_none_iff {β : Type} (obj : List (String × β)) (key : String) :
    objGet obj key = none ↔ key ∉ objKeys obj := by
  induction obj with
  | nil => simp [objGet, objKeys]
  | cons e rest ih =>
    obtain ⟨k, w⟩ := e
    by_cases h : k = key
    · subst h; simp [objGet, objKeys]
    · have h2 : ¬ key = k := fun e => h e.symm
      simp [objGet, objKeys, h, h2] at ih ⊢
      exact ih

theorem objSet_ne_nil {β : Type} (obj : List (String × β)) (key : String) (v : β) :
    objSet obj key v ≠ [] := by
  cases obj with
  | nil => simp [objSet]
  | cons e rest =>
    obtain ⟨k, w⟩ := e
    by_cases h : k = key <;> simp [objSet, h]

theorem objSet_append_new {β : Type} (obj : List (String × β)) (key : String) (v : β)
    (h : key ∉ objKeys obj) : objSet obj key v = obj ++ [(key, v)] := by
  induction obj with
  | nil => rfl
  | cons e rest ih =>
    obtain ⟨k, w⟩ := e
    simp [objKeys] at h
    have h1 : ¬ k = key := fun e => h.1 e.symm
    have h2 : key ∉ objKeys rest := by simpa [objKeys] using h.2
    simp [objSet, h1, ih h2]

/-! ### `mergeModConfiguration` -/

theorem mergeLoop_eq_map (omods mods : ModMap) :
    mergeLoop omods mods = mods.map (fun e => (e.1, mergeEntry omods e.1 e.2)) := by
  induction mods with
  | nil => simp [mergeLoop]
  | cons e rest ih =>
    obtain ⟨k, nv⟩ := e
    simp only [mergeLoop, List.map_cons, ih, mergeEntry]
    cases objGet omods k <;> rfl

theorem objKeys_mergeLoop (omods mods : ModMap) :
    objKeys (mergeLoop omods mods) = objKeys mods := by
  simp [mergeLoop_eq_map, objKeys, Function.comp_def]

theorem objGet_mergeLoop (omods mods : ModMap) (key : String) :
    objGet (mergeLoop omods mods) key = (objGet mods key).map (mergeEntry omods key) := by
  rw [mergeLoop_eq_map]
  exact objGet_map_snd (mergeEntry omods) mods key

theorem mergeModConfiguration_mods (o n : ConfigValue) (nReq : Bool) :
    (mergeModConfiguration o n nReq).mods = mergeLoop o.mods n.mods := by
  cases o <;> cases n <;> simp [mergeModConfiguration, ConfigValue.mods, mergeLoop]
  rename_i b v ms
  rw [mergeLoop_eq_map]
  simp [mergeEntry, objGet]

theorem objGet_append_new {β : Type} (pre suf : List (String × β)) (key : String)
    (h : key ∉ objKeys pre) : objGet (pre ++ suf) key = objGet suf key := by
  induction pre with
  | nil => rfl
  | cons e rest ih =>
    obtain ⟨k, w⟩ := e
    simp [objKeys] at h
    have h1 : ¬ k = key := fun e => h.1 e.symm
    have h2 : key ∉ objKeys rest := by simpa [objKeys] using h.2
    simp [objGet, h1, ih h2]

theorem objSet_append_old {β : Type} (pre rest : List (String × β)) (key : String) (w v : β)
    (h : key ∉ objKeys pre) :
    objSet (pre ++ (key, w) :: rest) key v = pre ++ (key, v) :: rest := by
  induction pre with
  | nil => simp [objSet]
  | cons e pre ih =>
    obtain ⟨k, x⟩ := e
    simp [objKeys] at h
    have h1 : ¬ k = key := fun e => h.1 e.symm
    have h2 : key ∉ objKeys pre := by simpa [objKeys] using h.2
    simp [objSet, h1, ih h2]

/-- The loop of `mergeModConfiguration`, run key by key on an object (whose keys are pairwise
distinct), is `mergeLoop`. -/
theorem mergeLoop_eq_foldl_keys (omods mods : ModMap) (h : (objKeys mods).Nodup) :
    (objKeys mods).foldl (mergeLoopStep omods) mods = mergeLoop omods mods := by
  have key : ∀ (suf pre : ModMap), (objKeys (pre ++ suf)).Nodup →
      (objKeys suf).foldl (mergeLoopStep omods) (pre ++ suf) = pre ++ mergeLoop omods suf := by
    intro suf
    induction suf with
    | nil => intro pre _; simp [objKeys, mergeLoop]
    | cons e rest ih =>
      intro pre hnd
      obtain ⟨k, nv⟩ := e
      have hk : k ∉ objKeys pre := by
        simp only [objKeys, List.map_append, List.map_cons] at hnd
        have := (List.nodup_append.mp hnd).2.2
        intro hmem
        exact this hmem (List.mem_cons_self _ _)
      have hnd' : ∀ v, (objKeys ((pre ++ [(k, v)]) ++ rest)).Nodup := by
        intro v
        simpa [objKeys] using hnd
      simp only [objKeys, List.map_cons, List.foldl_cons]
      cases ho : objGet omods k with
      | none =>
        have hstep : mergeLoopStep omods (pre ++ (k, nv) :: rest) k = (pre ++ [(k, nv)]) ++ rest := by
          simp [mergeLoopStep, ho]
        rw [hstep]
        have := ih (pre ++ [(k, nv)]) (hnd' nv)
        simp only [objKeys] at this
        rw [this]
        simp [mergeLoop, ho]
      | some ov =>
        have hstep : mergeLoopStep omods (pre ++ (k, nv) :: rest) k
            = (pre ++ [(k, mergeModConfiguration ov nv false)]) ++ rest := by
          simp [mergeLoopStep, ho, objGet_append_new _ _ _ hk, objGet,
            objSet_append_old _ _ _ _ _ hk]
        rw [hstep]
        have := ih (pre ++ [(k, mergeModConfiguration ov nv false)]) (hnd' _)
        simp only [objKeys] at this
        rw [this]
        simp [mergeLoop, ho]
  simpa using key mods [] (by simpa using h)

mutual
theorem sameShape_refl : ∀ v : ConfigValue, sameShape v v = true
  | .flag _ => by simp [sameShape]
  | .group _ ms => by simp [sameShape, sameShapeMods_refl ms]
theorem sameShapeMods_refl : ∀ ms : ModMap, sameShapeMods ms ms = true
  | [] => by simp [sameShapeMods]
  | (_, v) :: ms => by simp [sameShapeMods, sameShape_refl v, sameShapeMods_refl ms]
end

mutual
theorem sameShape_merge : ∀ (o n : ConfigValue) (nReq : Bool),
    sameShape (mergeModConfiguration o n nReq) n = true
  | .flag _, .flag _, _ => by simp [mergeModConfiguration, sameShape]
  | .flag _, .group _ ms, _ => by simp [mergeModConfiguration, sameShape, sameShapeMods_refl ms]
  | .group _ _, .flag _, _ => by simp [mergeModConfiguration, sameShape]
  | .group _ oms, .group _ ms, _ => by
      simp [mergeModConfiguration, sameShape, sameShapeMods_mergeLoop oms ms]
theorem sameShapeMods_mergeLoop : ∀ (oms ms : ModMap),
    sameShapeMods (mergeLoop oms ms) ms = true
  | _, [] => by simp [mergeLoop, sameShapeMods]
  | oms, (k, nv) :: rest => by
      cases h : objGet oms k with
      | none =>
        simp [mergeLoop, h, sameShapeMods, sameShape_refl nv, sameShapeMods_mergeLoop oms rest]
      | some ov =>
        simp [mergeLoop, h, sameShapeMods, sameShape_merge ov nv false,
          sameShapeMods_mergeLoop oms rest]
end

/-! ### Merge cases (C6, C7, C3) -/

/-- C6: promotion of a boolean preference.  Merging an old boolean `b` into a fresh object
`{value, mods}` gives `{value: b, mods}` when the module is not required and leaves the fresh
object as it is when the module is required. -/
theorem merge_flag_into_group (b : Bool) (v : Option Bool) (mods : ModMap) :
    mergeModConfiguration (.flag b) (.group v mods) false = .group (some b) mods
    ∧ mergeModConfiguration (.flag b) (.group v mods) true = .group v mods := by
  constructor <;> simp [mergeModConfiguration]

/-- C7: demotion fails open.  Merging an old object into a fresh boolean gives the old `value`
when it is present and `true` when it is absent, whatever the fresh boolean, the required flag
and the old `mods`. -/
theorem merge_group_into_flag (ov : Option Bool) (omods : ModMap) (d nReq : Bool) :
    mergeModConfiguration (.group ov omods) (.flag d) nReq = .flag (ov.getD true) := by
  cases ov <;> simp [mergeModConfiguration]

/-- C3: the shape of a merge comes from the fresh value.  The result is a boolean exactly when
`n` is, it has the shape of `n` at every depth (same keys in every `mods`), the keys of its
`mods` are those of `n.mods`, a key that `n.mods` lacks is absent from the result even when
`o.mods` has it, and a key that `o.mods` lacks keeps the value `n.mods` gives it. -/
theorem merge_shape_from_fresh (o n : ConfigValue) (nReq : Bool) :
    (mergeModConfiguration o n nReq).isBoolean = n.isBoolean
    ∧ sameShape (mergeModConfiguration o n nReq) n = true
    ∧ objKeys (mergeModConfiguration o n nReq).mods = objKeys n.mods
    ∧ (∀ key, objGet n.mods key = none →
        objGet (mergeModConfiguration o n nReq).mods key = none)
    ∧ (∀ key, objGet o.mods key = none →
        objGet (mergeModConfiguration o n nReq).mods key = objGet n.mods key) := by
  refine ⟨?_, sameShape_merge o n nReq, ?_, ?_, ?_⟩
  · cases o <;> cases n <;> simp [mergeModConfiguration, ConfigValue.isBoolean]
  · rw [mergeModConfiguration_mods, objKeys_mergeLoop]
  · intro key h
    rw [mergeModConfiguration_mods, objGet_mergeLoop, h]; rfl
  · intro key h
    rw [mergeModConfiguration_mods, objGet_mergeLoop]
    cases objGet n.mods key <;> simp [mergeEntry, h]

/-! ### `scanOptionalSubModules` -/

theorem scanOptionalSubModules_some (mdls : List Module) (origin : Module) :
    scanOptionalSubModules (some mdls) origin
      = if (objKeys (scanLoop mdls [])).length > 0 then
          .group (if !origin.isRequired then some origin.isDefault else none) (scanLoop mdls [])
        else .flag origin.isDefault := by
  simp [scanOptionalSubModules]

theorem scanOptionalSubModules_none (origin : Module) :
    scanOptionalSubModules none origin = .flag origin.isDefault := by
  simp [scanOptionalSubModules]

theorem scanLoop_nil (mods : ModMap) : scanLoop [] mods = mods := by
  simp [scanLoop]

theorem scanLoop_cons (mdl : Module) (rest : List Module) (mods : ModMap) :
    scanLoop (mdl :: rest) mods = scanLoop rest (syncStepNew mods mdl) := by
  obtain ⟨id, type, req, dflt, subs⟩ := mdl
  simp only [scanLoop, syncStepNew, Module.getType, Module.isRequired, Module.getVersionlessID,
    Module.getSubModules, Module.hasSubModules]
  split
  · split
    · rfl
    · split
      · split <;> rfl
      · rfl
  · rfl

theorem scanLoop_eq_foldl (mdls : List Module) (mods : ModMap) :
    scanLoop mdls mods = mdls.foldl syncStepNew mods := by
  induction mdls generalizing mods with
  | nil => simp [scanLoop_nil]
  | cons mdl rest ih => simp [scanLoop_cons, ih]

theorem scan_isObject_present (subs : Option (List Module)) (origin : Module)
    (h : (scanOptionalSubModules subs origin).isObject = true) : subModulesPresent subs = true := by
  cases subs with
  | none => simp [scanOptionalSubModules_none, ConfigValue.isObject] at h
  | some l =>
    cases l with
    | nil => simp [scanOptionalSubModules_some, scanLoop_nil, objKeys, ConfigValue.isObject] at h
    | cons a l => rfl

theorem buildDefault_eq (mdl : Module) :
    buildDefault mdl
      = if !mdl.isRequired || (scanOptionalSubModules mdl.getSubModules mdl).isObject then
          some (scanOptionalSubModules mdl.getSubModules mdl)
        else none := by
  unfold buildDefault
  cases hr : mdl.isRequired
  · simp
  · cases ho : (scanOptionalSubModules mdl.getSubModules mdl).isObject
    · simp [ho]
    · have := scan_isObject_present _ _ ho
      simp [Module.hasSubModules, this, ho]

theorem syncStepNew_eq_buildDefault (mods : ModMap) (mdl : Module) :
    syncStepNew mods mdl
      = if isOptionalType mdl.getType then
          match buildDefault mdl with
          | some v => objSet mods mdl.getVersionlessID v
          | none => mods
        else mods := by
  unfold syncStepNew buildDefault
  cases isOptionalType mdl.getType <;> cases mdl.isRequired <;> cases mdl.hasSubModules <;>
    simp
  cases (scanOptionalSubModules mdl.getSubModules mdl).isObject <;> simp

theorem syncStepNew_eq (mods : ModMap) (mdl : Module) :
    syncStepNew mods mdl
      = if emits mdl then
          objSet mods mdl.getVersionlessID (scanOptionalSubModules mdl.getSubModules mdl)
        else mods := by
  rw [syncStepNew_eq_buildDefault, buildDefault_eq]
  unfold emits
  cases isOptionalType mdl.getType <;>
    cases (!mdl.isRequired || (scanOptionalSubModules mdl.getSubModules mdl).isObject) <;> simp

theorem foldl_syncStepNew_filter (mdls : List Module) (mods : ModMap) :
    mdls.foldl syncStepNew mods
      = (mdls.filter emits).foldl
          (fun acc c => objSet acc c.getVersionlessID (scanOptionalSubModules c.getSubModules c))
          mods := by
  induction mdls generalizing mods with
  | nil => rfl
  | cons mdl rest ih =>
    rw [List.foldl_cons, ih, syncStepNew_eq]
    cases h : emits mdl <;> simp [List.filter_cons, h]

theorem foldl_objSet_ne_nil {α : Type} (l : List α) (f : α → String) (g : α → ConfigValue)
    (mods : ModMap) (h : mods ≠ [] ∨ l ≠ []) :
    l.foldl (fun acc c => objSet acc (f c) (g c)) mods ≠ [] := by
  induction l generalizing mods with
  | nil => simpa using h
  | cons a l ih =>
    rw [List.foldl_cons]
    exact ih _ (Or.inl (objSet_ne_nil _ _ _))

theorem foldl_objSet_nodup {α : Type} (l : List α) (f : α → String) (g : α → ConfigValue)
    (mods : ModMap) (hl : (l.map f).Nodup) (hd : ∀ c ∈ l, f c ∉ objKeys mods) :
    l.foldl (fun acc c => objSet acc (f c) (g c)) mods = mods ++ l.map (fun c => (f c, g c)) := by
  induction l generalizing mods with
  | nil => simp
  | cons a l ih =>
    rw [List.foldl_cons, objSet_append_new _ _ _ (hd a (List.mem_cons_self _ _))]
    simp only [List.map_cons, List.nodup_cons] at hl
    rw [ih _ hl.2]
    · simp
    · intro c hc
      have h1 := hd c (List.mem_cons_of_mem _ hc)
      have h2 : f c ≠ f a := fun e => hl.1 (e ▸ List.mem_map_of_mem f hc)
      simp [objKeys] at h1 ⊢
      exact ⟨h1, h2⟩

theorem scanLoop_eq_nil_iff (mdls : List Module) :
    scanLoop mdls [] = [] ↔ mdls.filter emits = [] := by
  rw [scanLoop_eq_foldl, foldl_syncStepNew_filter]
  constructor
  · intro h
    by_contra hne
    exact foldl_objSet_ne_nil _ _ _ _ (Or.inr hne) h
  · intro h; rw [h]; rfl

theorem scan_eq_of_nodup (subs : Option (List Module)) (origin : Module)
    (hids : ((trackedChildren subs).map Module.getVersionlessID).Nodup) :
    scanOptionalSubModules subs origin
      = if (trackedChildren subs).isEmpty then .flag origin.isDefault
        else .group (if origin.isRequired then none else some origin.isDefault)
          ((trackedChildren subs).map
            (fun c => (c.getVersionlessID, scanOptionalSubModules c.getSubModules c))) := by
  cases subs with
  | none => simp [scanOptionalSubModules_none, trackedChildren]
  | some l =>
    have hl : scanLoop l [] = (l.filter emits).map
        (fun c => (c.getVersionlessID, scanOptionalSubModules c.getSubModules c)) := by
      rw [scanLoop_eq_foldl, foldl_syncStepNew_filter,
        foldl_objSet_nodup _ _ _ _ (by simpa [trackedChildren] using hids)
          (by simp [objKeys])]
      simp
    rw [scanOptionalSubModules_some, hl]
    simp only [trackedChildren, Option.getD_some]
    cases hf : l.filter emits with
    | nil => simp [objKeys]
    | cons a t => cases origin.isRequired <;> simp [objKeys]

/-! ### Default configuration of a module (C5) -/

/-- C5: default configuration of a module.  With `K` the sub-modules of `m` of an optional
type that are not required or whose own default is an object (`trackedChildren`), and the ids
of `K` pairwise distinct: when `K` is empty (or the sub-module list is `null`) the default of
`m` is the boolean `m.isDefault()`; otherwise it is an object whose `mods` maps exactly the ids
of `K`, in order, to the defaults of those children, with `value` equal to `m.isDefault()` when
`m` is optional and absent when `m` is required. -/
theorem scan_default_config (m : Module)
    (hids : ((trackedChildren m.getSubModules).map Module.getVersionlessID).Nodup) :
    scanOptionalSubModules m.getSubModules m
      = if (trackedChildren m.getSubModules).isEmpty then .flag m.isDefault
        else .group (if m.isRequired then none else some m.isDefault)
          ((trackedChildren m.getSubModules).map
            (fun c => (c.getVersionlessID, scanOptionalSubModules c.getSubModules c))) :=
  scan_eq_of_nodup m.getSubModules m hids

/-- Witness of C5 on the example tree of the specification: the default of `A` is
`{value: false, mods: {C: true}}`. -/
theorem scan_default_config_witness :
    ((trackedChildren exampleA.getSubModules).map Module.getVersionlessID).Nodup
    ∧ scanOptionalSubModules exampleA.getSubModules exampleA
        = .group (some false) [("C", .flag true)] :=
  ⟨by decide, (scan_default_config exampleA (by decide)).trans (by decide)⟩

/-! ### Modules without an entry (C8) -/

/-- C8, as stated, fails: `exampleRequiredParent` is of an optional type and gets no entry,
yet it has a sub-module of an optional type. -/
theorem buildDefault_absent_counterexample :
    isOptionalType exampleRequiredParent.getType = true
    ∧ ¬ (buildDefault exampleRequiredParent = none
          ↔ (exampleRequiredParent.isRequired = true
              ∧ ∀ c ∈ exampleRequiredParent.getSubModules.getD [],
                  isOptionalType c.getType = false)) := by
  decide

/-- C8, amended: a module gets no entry exactly when it is required and none of its
sub-modules of an optional type gets an entry; when it gets one, the entry is its
`scanOptionalSubModules` value, and the loops of `syncModConfigurations` and of
`scanOptionalSubModules` store exactly that entry under the id of the module. -/
theorem buildDefault_absent_iff (m : Module) :
    (buildDefault m = none
      ↔ (m.isRequired = true
          ∧ ∀ c ∈ m.getSubModules.getD [], isOptionalType c.getType = true →
              buildDefault c = none))
    ∧ (∀ v, buildDefault m = some v → v = scanOptionalSubModules m.getSubModules m)
    ∧ (∀ mods, isOptionalType m.getType = true →
        syncStepNew mods m
          = match buildDefault m with
            | some v => objSet mods m.getVersionlessID v
            | none => mods)
    ∧ (∀ rest mods, isOptionalType m.getType = true →
        scanLoop (m :: rest) mods
          = scanLoop rest
              (match buildDefault m with
                | some v => objSet mods m.getVersionlessID v
                | none => mods)) := by
  have hstep : ∀ mods, isOptionalType m.getType = true →
      syncStepNew mods m
        = match buildDefault m with
          | some v => objSet mods m.getVersionlessID v
          | none => mods := by
    intro mods ht
    rw [syncStepNew_eq_buildDefault, ht]; rfl
  refine ⟨?_, ?_, hstep, ?_⟩
  · have hkey : ∀ c : Module, isOptionalType c.getType = true →
        (buildDefault c = none ↔ emits c = false) := by
      intro c hc
      rw [buildDefault_eq]
      unfold emits
      rw [hc]
      cases (!c.isRequired || (scanOptionalSubModules c.getSubModules c).isObject) <;> simp
    have hobj : (scanOptionalSubModules m.getSubModules m).isObject = false
        ↔ (m.getSubModules.getD []).filter emits = [] := by
      cases hs : m.getSubModules with
      | none => simp [scanOptionalSubModules_none, ConfigValue.isObject]
      | some l =>
        rw [scanOptionalSubModules_some, Option.getD_some, ← scanLoop_eq_nil_iff]
        cases hl : scanLoop l [] <;> simp [objKeys, ConfigValue.isObject]
    rw [buildDefault_eq]
    cases hr : m.isRequired
    · simp
    · simp only [Bool.not_true, Bool.false_or, true_and]
      cases ho : (scanOptionalSubModules m.getSubModules m).isObject
      · simp only [Bool.false_eq_true, if_false, true_iff]
        intro c hc ht
        rw [hkey c ht]
        have := hobj.mp ho
        rw [List.filter_eq_nil_iff] at this
        simpa using this c hc
      · simp only [if_true]
        refine ⟨fun h => Option.noConfusion h, fun hall => ?_⟩
        exfalso
        have : (m.getSubModules.getD []).filter emits = [] := by
          rw [List.filter_eq_nil_iff]
          intro c hc he
          have ht : isOptionalType c.getType = true := by
            unfold emits at he
            simp only [Bool.and_eq_true] at he
            exact he.1
          rw [(hkey c ht).mp (hall c hc ht)] at he
          exact Bool.false_ne_true he
        rw [← hobj, ho] at this
        exact Bool.noConfusion this
  · intro v hv
    rw [buildDefault_eq] at hv
    split at hv
    · exact (Option.some.inj hv).symm
    · exact Option.noConfusion hv
  · intro rest mods ht
    rw [scanLoop_cons, hstep mods ht]

/-! ### `reconcileServer` -/

theorem merge_flag_any (o : ConfigValue) (d r r' : Bool) :
    mergeModConfiguration o (.flag d) r = mergeModConfiguration o (.flag d) r' := by
  cases o <;> simp [mergeModConfiguration]

theorem scan_lacksValue (subs : Option (List Module)) (origin : Module) :
    (scanOptionalSubModules subs origin).lacksValue
      = ((scanOptionalSubModules subs origin).isObject && origin.isRequired) := by
  cases subs with
  | none => simp [scanOptionalSubModules_none, ConfigValue.lacksValue, ConfigValue.isObject]
  | some l =>
    rw [scanOptionalSubModules_some]
    split
    · cases origin.isRequired <;> simp [ConfigValue.lacksValue, ConfigValue.isObject]
    · simp [ConfigValue.lacksValue, ConfigValue.isObject]

theorem merge_scan_req (o : ConfigValue) (mdl : Module) :
    mergeModConfiguration o (scanOptionalSubModules mdl.getSubModules mdl)
        (scanOptionalSubModules mdl.getSubModules mdl).lacksValue
      = mergeModConfiguration o (scanOptionalSubModules mdl.getSubModules mdl) mdl.isRequired := by
  rw [scan_lacksValue]
  cases hv : scanOptionalSubModules mdl.getSubModules mdl with
  | flag d => exact merge_flag_any _ _ _ _
  | group v ms => simp [ConfigValue.isObject]

theorem syncStepOld_map (modsOld mods : ModMap) (mdl : Module) :
    syncStepOld modsOld (mods.map (fun e => (e.1, topMerge modsOld e.1 e.2))) mdl
      = (syncStepNew mods mdl).map (fun e => (e.1, topMerge modsOld e.1 e.2)) := by
  have key :
      (match objGet modsOld mdl.getVersionlessID with
        | none => objSet (mods.map (fun e => (e.1, topMerge modsOld e.1 e.2)))
            mdl.getVersionlessID (scanOptionalSubModules mdl.getSubModules mdl)
        | some o => objSet (mods.map (fun e => (e.1, topMerge modsOld e.1 e.2)))
            mdl.getVersionlessID
            (mergeModConfiguration o (scanOptionalSubModules mdl.getSubModules mdl)
              mdl.isRequired))
      = (objSet mods mdl.getVersionlessID (scanOptionalSubModules mdl.getSubModules mdl)).map
          (fun e => (e.1, topMerge modsOld e.1 e.2)) := by
    rw [← objSet_map_snd (topMerge modsOld)]
    unfold topMerge
    cases hg : objGet modsOld mdl.getVersionlessID with
    | none => rfl
    | some o => simp only [merge_scan_req o mdl]
  unfold syncStepOld syncStepNew
  cases ht : isOptionalType mdl.getType
  · simp
  · cases hr : mdl.isRequired
    · have := key
      rw [hr] at this
      simpa using this
    · cases hh : mdl.hasSubModules
      · simp
      · cases ho : (scanOptionalSubModules mdl.getSubModules mdl).isObject
        · simp [ho]
        · have := key
          rw [hr] at this
          simpa [ho] using this

/-- With a stored configuration, the loop of `syncModConfigurations` produces the entries it
produces without one, each merged with the old entry of its id when there is one. -/
theorem reconcileServer_some (mdls : List Module) (modsOld : ModMap) :
    reconcileServer mdls (some modsOld)
      = (reconcileServer mdls none).map (fun e => (e.1, topMerge modsOld e.1 e.2)) := by
  have h : ∀ mods : ModMap,
      mdls.foldl (syncStepOld modsOld) (mods.map (fun e => (e.1, topMerge modsOld e.1 e.2)))
        = (mdls.foldl syncStepNew mods).map (fun e => (e.1, topMerge modsOld e.1 e.2)) := by
    induction mdls with
    | nil => intro mods; rfl
    | cons mdl rest ih =>
      intro mods
      rw [List.foldl_cons, List.foldl_cons, syncStepOld_map, ih]
  exact h []

theorem mem_objSet {β : Type} (obj : List (String × β)) (key : String) (v : β)
    (e : String × β) (h : e ∈ objSet obj key v) : e = (key, v) ∨ e ∈ obj := by
  induction obj with
  | nil => simpa [objSet] using h
  | cons a rest ih =>
    obtain ⟨k, w⟩ := a
    by_cases hk : k = key
    · subst hk
      simp only [objSet, if_true, List.mem_cons] at h
      rcases h with h | h
      · exact Or.inl h
      · exact Or.inr (List.mem_cons_of_mem _ h)
    · simp only [objSet, hk, if_false, List.mem_cons] at h
      rcases h with h | h
      · exact Or.inr (h ▸ List.mem_cons_self _ _)
      · rcases ih h with h | h
        · exact Or.inl h
        · exact Or.inr (List.mem_cons_of_mem _ h)

theorem mem_foldl_syncStepNew (mdls : List Module) (mods : ModMap) (e : String × ConfigValue)
    (h : e ∈ mdls.foldl syncStepNew mods) :
    e ∈ mods ∨ ∃ m ∈ mdls, emits m = true ∧ m.getVersionlessID = e.1
      ∧ e.2 = scanOptionalSubModules m.getSubModules m := by
  induction mdls generalizing mods with
  | nil => exact Or.inl h
  | cons mdl rest ih =>
    rw [List.foldl_cons] at h
    rcases ih _ h with h | ⟨m, hm, hrest⟩
    · rw [syncStepNew_eq] at h
      split at h
      · rename_i hem
        rcases mem_objSet _ _ _ _ h with h | h
        · exact Or.inr ⟨mdl, List.mem_cons_self _ _, hem, by rw [h], by rw [h]⟩
        · exact Or.inl h
      · exact Or.inl h
    · exact Or.inr ⟨m, List.mem_cons_of_mem _ hm, hrest⟩

theorem objGet_objSet {β : Type} (obj : List (String × β)) (k key : String) (v : β) :
    objGet (objSet obj k v) key = if k = key then some v else objGet obj key := by
  induction obj with
  | nil => simp [objSet, objGet]
  | cons e rest ih =>
    obtain ⟨l, w⟩ := e
    by_cases h1 : l = k
    · subst h1
      by_cases h2 : l = key <;> simp [objSet, objGet, h2]
    · by_cases h2 : l = key
      · subst h2
        have hne : ¬ k = l := fun e => h1 e.symm
        simp [objSet, objGet, h1, hne]
      · simp [objSet, objGet, h1, h2, ih]

theorem objGet_foldl_syncStepNew (mdls : List Module) (mods : ModMap) (key : String) :
    objGet (mdls.foldl syncStepNew mods) key
      = match lastEmitter mdls key with
        | some m => some (scanOptionalSubModules m.getSubModules m)
        | none => objGet mods key := by
  induction mdls using List.reverseRecOn with
  | nil => simp [lastEmitter]
  | append_singleton l m ih =>
    rw [List.foldl_append, List.foldl_cons, List.foldl_nil, syncStepNew_eq]
    have hl : lastEmitter (l ++ [m]) key
        = if (emits m && decide (m.getVersionlessID = key)) = true then some m
          else lastEmitter l key := by
      simp [lastEmitter, List.find?_cons]
      cases emits m <;> by_cases hk : m.getVersionlessID = key <;> simp [hk]
    rw [hl]
    cases he : emits m
    · simpa using ih
    · by_cases hk : m.getVersionlessID = key
      · simp [objGet_objSet, hk]
      · simpa [objGet_objSet, hk] using ih

theorem objGet_reconcileServer_none (mdls : List Module) (key : String) :
    objGet (reconcileServer mdls none) key
      = (lastEmitter mdls key).map (fun m => scanOptionalSubModules m.getSubModules m) := by
  unfold reconcileServer
  rw [objGet_foldl_syncStepNew]
  cases lastEmitter mdls key <;> simp [objGet]

theorem emits_iff_buildDefault (m : Module) :
    emits m = true ↔ (isOptionalType m.getType = true ∧ buildDefault m ≠ none) := by
  rw [buildDefault_eq]
  unfold emits
  cases isOptionalType m.getType <;>
    cases (!m.isRequired || (scanOptionalSubModules m.getSubModules m).isObject) <;> simp

theorem lastEmitter_of_mem (mdls : List Module) (m : Module) (hm : m ∈ mdls)
    (he : emits m = true) :
    ∃ m', lastEmitter mdls m.getVersionlessID = some m' ∧ m' ∈ mdls ∧ emits m' = true
      ∧ m'.getVersionlessID = m.getVersionlessID := by
  cases hf : lastEmitter mdls m.getVersionlessID with
  | none =>
    unfold lastEmitter at hf
    rw [List.find?_eq_none] at hf
    have := hf m (List.mem_reverse.mpr hm)
    simp [he] at this
  | some m' =>
    unfold lastEmitter at hf
    have h1 := List.find?_some hf
    have h2 := List.mem_reverse.mp (List.mem_of_find?_eq_some hf)
    simp only [Bool.and_eq_true, decide_eq_true_eq] at h1
    exact ⟨m', rfl, h2, h1.1, h1.2⟩

/-! ### No prior configuration and an empty one (C10) -/

/-- C10: a stored configuration whose `mods` is empty gives the same result as no stored
configuration; every entry of that result is the `scanOptionalSubModules` value of a top-level
module of an optional type with that id; for any stored configuration, an id without an
entry in it gets the entry it gets when nothing is stored; the entry under an id is there
exactly when a top-level module with that id has a default, and it is the
`scanOptionalSubModules` value of the last such module; so every top-level module of an
optional type that has a default gets an entry under its id, with or without a stored
configuration, and when no other top-level module with a default shares its id and the stored
configuration (if any) has no entry for it, that entry is its fresh default. -/
theorem reconcile_empty_eq_none (mdls : List Module) :
    reconcileServer mdls (some []) = reconcileServer mdls none
    ∧ (∀ e ∈ reconcileServer mdls none, ∃ m ∈ mdls, isOptionalType m.getType = true
        ∧ m.getVersionlessID = e.1 ∧ e.2 = scanOptionalSubModules m.getSubModules m)
    ∧ (∀ modsOld key, objGet modsOld key = none →
        objGet (reconcileServer mdls (some modsOld)) key
          = objGet (reconcileServer mdls none) key)
    ∧ (∀ key, objGet (reconcileServer mdls none) key
        = (lastEmitter mdls key).map (fun m => scanOptionalSubModules m.getSubModules m))
    ∧ (∀ m ∈ mdls, isOptionalType m.getType = true → buildDefault m ≠ none →
        (objGet (reconcileServer mdls none) m.getVersionlessID).isSome = true
        ∧ ∀ modsOld,
            (objGet (reconcileServer mdls (some modsOld)) m.getVersionlessID).isSome = true)
    ∧ (∀ m ∈ mdls, isOptionalType m.getType = true → ∀ v, buildDefault m = some v →
        (∀ m' ∈ mdls, emits m' = true → m'.getVersionlessID = m.getVersionlessID → m' = m) →
        v = scanOptionalSubModules m.getSubModules m
        ∧ objGet (reconcileServer mdls none) m.getVersionlessID = some v
        ∧ objGet (reconcileServer mdls (some [])) m.getVersionlessID = some v
        ∧ ∀ modsOld, objGet modsOld m.getVersionlessID = none →
            objGet (reconcileServer mdls (some modsOld)) m.getVersionlessID = some v) := by
  have hempty : reconcileServer mdls (some []) = reconcileServer mdls none := by
    rw [reconcileServer_some]
    simp [topMerge, objGet]
  have hold : ∀ modsOld key, objGet modsOld key = none →
      objGet (reconcileServer mdls (some modsOld)) key
        = objGet (reconcileServer mdls none) key := by
    intro modsOld key hk
    rw [reconcileServer_some, objGet_map_snd (topMerge modsOld)]
    cases objGet (reconcileServer mdls none) key <;> simp [topMerge, hk]
  refine ⟨hempty, ?_, hold, objGet_reconcileServer_none mdls, ?_, ?_⟩
  · intro e he
    rcases mem_foldl_syncStepNew mdls [] e he with h | ⟨m, hm, hem, hrest⟩
    · simp at h
    · refine ⟨m, hm, ?_, hrest⟩
      unfold emits at hem
      simp only [Bool.and_eq_true] at hem
      exact hem.1
  · intro m hm ht hd
    obtain ⟨m', hl, _, _, _⟩ :=
      lastEmitter_of_mem mdls m hm ((emits_iff_buildDefault m).mpr ⟨ht, hd⟩)
    have hnone : (objGet (reconcileServer mdls none) m.getVersionlessID).isSome = true := by
      rw [objGet_reconcileServer_none, hl]; rfl
    refine ⟨hnone, fun modsOld => ?_⟩
    rw [reconcileServer_some, objGet_map_snd (topMerge modsOld)]
    cases hg : objGet (reconcileServer mdls none) m.getVersionlessID with
    | none => rw [hg] at hnone; exact Bool.noConfusion hnone
    | some f => rfl
  · intro m hm ht v hv huniq
    have hd : buildDefault m ≠ none := by rw [hv]; exact fun h => Option.noConfusion h
    obtain ⟨m', hl, hm', he', hid'⟩ :=
      lastEmitter_of_mem mdls m hm ((emits_iff_buildDefault m).mpr ⟨ht, hd⟩)
    have hmm : m' = m := huniq m' hm' he' hid'
    subst hmm
    have hvs : v = scanOptionalSubModules m'.getSubModules m' := by
      rw [buildDefault_eq] at hv
      split at hv
      · exact (Option.some.inj hv).symm
      · exact Option.noConfusion hv
    have hnone : objGet (reconcileServer mdls none) m'.getVersionlessID = some v := by
      rw [objGet_reconcileServer_none, hl, hvs]; rfl
    refine ⟨hvs, hnone, ?_, ?_⟩
    · rw [hempty]; exact hnone
    · intro modsOld hk
      rw [hold modsOld _ hk]; exact hnone

/-- Witness of C10 on `exampleOptionalTop`: its one top-level module `A` has the default
`{mods: {C: true}, value: true}`, no other module shares its id, and that default is the entry
of `A` without a stored configuration, with an empty one, and with one that knows only `Z`. -/
theorem reconcile_empty_eq_none_witness :
    objGet (reconcileServer exampleOptionalTop none) "A"
        = some (.group (some true) [("C", .flag true)])
    ∧ objGet (reconcileServer exampleOptionalTop (some [])) "A"
        = some (.group (some true) [("C", .flag true)])
    ∧ objGet (reconcileServer exampleOptionalTop (some [("Z", .flag false)])) "A"
        = some (.group (some true) [("C", .flag true)]) :=
  have h := (reconcile_empty_eq_none exampleOptionalTop).2.2.2.2.2
    (node "A" false true [leaf "C" false true]) (by simp [exampleOptionalTop]) (by decide)
    (.group (some true) [("C", .flag true)]) (by decide)
    (by
      intro m' hm' _ _
      simpa [exampleOptionalTop] using hm')
  ⟨h.2.1, h.2.2.1, h.2.2.2 [("Z", .flag false)] (by decide)⟩

/-! ### Preservation of user choices (C2) -/

theorem sameShapeMods_objGet (ms ns : ModMap) (h : sameShapeMods ms ns = true) (key : String) :
    (objGet ms key = none ∧ objGet ns key = none)
    ∨ ∃ v w, objGet ms key = some v ∧ objGet ns key = some w ∧ sameShape v w = true := by
  induction ms generalizing ns with
  | nil =>
    cases ns with
    | nil => exact Or.inl ⟨rfl, rfl⟩
    | cons b ns => simp [sameShapeMods] at h
  | cons a ms ih =>
    obtain ⟨k, v⟩ := a
    cases ns with
    | nil => simp [sameShapeMods] at h
    | cons b ns =>
      obtain ⟨l, w⟩ := b
      simp only [sameShapeMods, Bool.and_eq_true, decide_eq_true_eq] at h
      obtain ⟨⟨hkl, hvw⟩, hrest⟩ := h
      subst hkl
      by_cases hk : k = key
      · exact Or.inr ⟨v, w, by simp [objGet, hk], by simp [objGet, hk], hvw⟩
      · simpa [objGet, hk] using ih ns hrest

theorem sameShape_isObject (v w : ConfigValue) (h : sameShape v w = true) :
    v.isObject = w.isObject := by
  cases v <;> cases w <;> simp [sameShape, ConfigValue.isObject] at h ⊢

theorem sameShape_atPath (p : List String) (v w : ConfigValue) (h : sameShape v w = true) :
    (v.atPath p).map ConfigValue.isObject = (w.atPath p).map ConfigValue.isObject := by
  induction p generalizing v w with
  | nil => simp [ConfigValue.atPath, sameShape_isObject v w h]
  | cons k p ih =>
    cases v with
    | flag b =>
      cases w with
      | flag c => simp [ConfigValue.atPath]
      | group x ns => simp [sameShape] at h
    | group x ms =>
      cases w with
      | flag c => simp [sameShape] at h
      | group y ns =>
        simp only [sameShape] at h
        rcases sameShapeMods_objGet ms ns h k with ⟨h1, h2⟩ | ⟨v', w', h1, h2, h3⟩
        · simp [ConfigValue.atPath, h1, h2]
        · simp only [ConfigValue.atPath, h1, h2]
          exact ih v' w' h3

theorem sameShapeMods_cfgAt (old fresh : ModMap) (h : sameShapeMods old fresh = true)
    (key : String) (p : List String) :
    (cfgAt old key p).map ConfigValue.isObject = (cfgAt fresh key p).map ConfigValue.isObject := by
  rcases sameShapeMods_objGet old fresh h key with ⟨h1, h2⟩ | ⟨v', w', h1, h2, h3⟩
  · simp [cfgAt, h1, h2]
  · simp only [cfgAt, h1, h2]
    exact sameShape_atPath p v' w' h3

theorem merge_carries (p : List String) : ∀ (o n : ConfigValue) (nReq : Bool),
    (∀ q, (o.atPath q).map ConfigValue.isObject = (n.atPath q).map ConfigValue.isObject) →
    (∀ b, o.atPath p = some (.flag b) →
        (mergeModConfiguration o n nReq).atPath p = some (.flag b))
    ∧ (∀ b ms, o.atPath p = some (.group (some b) ms) → (p ≠ [] ∨ nReq = false) →
        ∃ ms', (mergeModConfiguration o n nReq).atPath p = some (.group (some b) ms')) := by
  induction p with
  | nil =>
    intro o n nReq hs
    have h0 := hs []
    simp only [ConfigValue.atPath, Option.map_some, Option.some.injEq] at h0
    constructor
    · intro b hb
      simp only [ConfigValue.atPath, Option.some.injEq] at hb
      subst hb
      cases n with
      | flag d => simp [mergeModConfiguration, ConfigValue.atPath]
      | group v ms => simp [ConfigValue.isObject] at h0
    · intro b ms hb hreq
      simp only [ConfigValue.atPath, Option.some.injEq] at hb
      subst hb
      have hr : nReq = false := by
        rcases hreq with h | h
        · exact absurd rfl h
        · exact h
      subst hr
      cases n with
      | flag d => simp [ConfigValue.isObject] at h0
      | group v ns =>
        exact ⟨mergeLoop ms ns, by simp [mergeModConfiguration, ConfigValue.atPath]⟩
  | cons k p ih =>
    intro o n nReq hs
    cases o with
    | flag c =>
      constructor
      · intro b hb; simp [ConfigValue.atPath] at hb
      · intro b ms hb; simp [ConfigValue.atPath] at hb
    | group ov oms =>
      have h0 := hs []
      cases n with
      | flag d => simp [ConfigValue.atPath, ConfigValue.isObject] at h0
      | group v nms =>
        cases ho : objGet oms k with
        | none =>
          constructor
          · intro b hb; simp [ConfigValue.atPath, ho] at hb
          · intro b ms hb; simp [ConfigValue.atPath, ho] at hb
        | some o' =>
          have h1 := hs [k]
          cases hn : objGet nms k with
          | none => simp [ConfigValue.atPath, ho, hn] at h1
          | some n' =>
            have hs' : ∀ q, (o'.atPath q).map ConfigValue.isObject
                = (n'.atPath q).map ConfigValue.isObject := by
              intro q
              have := hs (k :: q)
              simpa [ConfigValue.atPath, ho, hn] using this
            have hres : (mergeModConfiguration (.group ov oms) (.group v nms) nReq).atPath
                (k :: p) = (mergeModConfiguration o' n' false).atPath p := by
              simp [mergeModConfiguration, ConfigValue.atPath, objGet_mergeLoop, hn,
                mergeEntry, ho]
            have hold : (ConfigValue.group ov oms).atPath (k :: p) = o'.atPath p := by
              simp [ConfigValue.atPath, ho]
            rw [hres, hold]
            obtain ⟨ihf, ihg⟩ := ih o' n' false hs'
            exact ⟨ihf, fun b ms hb _ => ihg b ms hb (Or.inr rfl)⟩

theorem topMerge_lacksValue (modsOld : ModMap) (key : String) (fresh : ConfigValue)
    (h : fresh.lacksValue = true) :
    ∃ ms, topMerge modsOld key fresh = .group none ms := by
  cases fresh with
  | flag d => simp [ConfigValue.lacksValue] at h
  | group v ms =>
    cases v with
    | some b => simp [ConfigValue.lacksValue] at h
    | none =>
      unfold topMerge
      cases objGet modsOld key with
      | none => exact ⟨ms, rfl⟩
      | some o =>
        cases o with
        | flag c => exact ⟨ms, by simp [mergeModConfiguration, ConfigValue.lacksValue]⟩
        | group ov oms =>
          exact ⟨mergeLoop oms ms, by simp [mergeModConfiguration, ConfigValue.lacksValue]⟩

/-- C2, as stated, fails: the prior configuration `exampleRequiredTopOld` has the shape of the
fresh configuration of `exampleRequiredTop`, its top-level object holds `value: false`, and the
reconciled object at the same path holds no `value`. -/
theorem preserve_choices_counterexample :
    ¬ ((∀ key p, (cfgAt exampleRequiredTopOld key p).map ConfigValue.isObject
          = (cfgAt (reconcileServer exampleRequiredTop none) key p).map ConfigValue.isObject) →
        ∀ key p b ms, cfgAt exampleRequiredTopOld key p = some (.group (some b) ms) →
          ∃ ms', cfgAt (reconcileServer exampleRequiredTop (some exampleRequiredTopOld)) key p
            = some (.group (some b) ms')) := by
  intro h
  have hs := sameShapeMods_cfgAt exampleRequiredTopOld (reconcileServer exampleRequiredTop none)
    (by decide)
  obtain ⟨ms', h'⟩ := h hs "A" [] false [("C", .flag false)] (by decide)
  have hres : cfgAt (reconcileServer exampleRequiredTop (some exampleRequiredTopOld)) "A" []
      = some (.group none [("C", .flag false)]) := by decide
  rw [hres] at h'
  injection h' with h'
  injection h' with h1 _
  exact Option.noConfusion h1

/-- C2, amended: when the prior configuration `old` has the shape of the fresh configuration
of the server (a value at the same paths, boolean where that is boolean and object where that
is an object), the reconciled configuration holds, at every path, the boolean `old` holds there;
a `value` present in an object of `old` is the `value` of the object at the same path wherever
the fresh object at that path has a `value` (the module there is optional); and a top-level
object whose fresh value lacks `value` (the object of a required module) lacks `value` in the
result, whatever `old` holds. -/
theorem preserve_choices (mdls : List Module) (old : ModMap)
    (hshape : ∀ key p, (cfgAt old key p).map ConfigValue.isObject
        = (cfgAt (reconcileServer mdls none) key p).map ConfigValue.isObject) :
    (∀ key p b, cfgAt old key p = some (.flag b) →
        cfgAt (reconcileServer mdls (some old)) key p = some (.flag b))
    ∧ (∀ key p b ms, cfgAt old key p = some (.group (some b) ms) →
        (∃ f, cfgAt (reconcileServer mdls none) key p = some f ∧ f.lacksValue = false) →
        ∃ ms', cfgAt (reconcileServer mdls (some old)) key p = some (.group (some b) ms'))
    ∧ (∀ key f, objGet (reconcileServer mdls none) key = some f → f.lacksValue = true →
        ∃ ms', objGet (reconcileServer mdls (some old)) key = some (.group none ms')) := by
  have hres : ∀ key o f, objGet old key = some o → objGet (reconcileServer mdls none) key = some f →
      ∀ p, cfgAt (reconcileServer mdls (some old)) key p
        = (mergeModConfiguration o f f.lacksValue).atPath p := by
    intro key o f ho hf p
    unfold cfgAt
    rw [reconcileServer_some, objGet_map_snd (topMerge old), hf]
    simp [topMerge, ho]
  have hfresh : ∀ key p v, cfgAt old key p = some v →
      ∃ o f, objGet old key = some o ∧ objGet (reconcileServer mdls none) key = some f
        ∧ o.atPath p = some v
        ∧ ∀ q, (o.atPath q).map ConfigValue.isObject = (f.atPath q).map ConfigValue.isObject := by
    intro key p v hv
    cases ho : objGet old key with
    | none => simp [cfgAt, ho] at hv
    | some o =>
      have h0 := hshape key []
      cases hf : objGet (reconcileServer mdls none) key with
      | none => simp [cfgAt, ho, hf, ConfigValue.atPath] at h0
      | some f =>
        refine ⟨o, f, rfl, rfl, by simpa [cfgAt, ho] using hv, ?_⟩
        intro q
        simpa [cfgAt, ho, hf] using hshape key q
  refine ⟨?_, ?_, ?_⟩
  · intro key p b hb
    obtain ⟨o, f, ho, hf, hv, hs⟩ := hfresh key p _ hb
    rw [hres key o f ho hf]
    exact (merge_carries p o f f.lacksValue hs).1 b hv
  · intro key p b ms hb hreq
    obtain ⟨o, f, ho, hf, hv, hs⟩ := hfresh key p _ hb
    rw [hres key o f ho hf]
    refine (merge_carries p o f f.lacksValue hs).2 b ms hv ?_
    obtain ⟨f', hf', hl⟩ := hreq
    cases p with
    | nil =>
      simp only [cfgAt, hf, ConfigValue.atPath, Option.some.injEq] at hf'
      exact Or.inr (hf' ▸ hl)
    | cons k q => exact Or.inl (List.cons_ne_nil k q)
  · intro key f hf hl
    obtain ⟨ms', h⟩ := topMerge_lacksValue old key f hl
    exact ⟨ms', by
      rw [reconcileServer_some, objGet_map_snd (topMerge old), hf]
      simp [h]⟩

/-- Witness of the amended C2: the choices of `exampleOptionalTopOld` (both `false`, against
defaults that are `true`) are the values of the reconciled configuration. -/
theorem preserve_choices_witness :
    cfgAt (reconcileServer exampleOptionalTop (some exampleOptionalTopOld)) "A" ["C"]
        = some (.flag false)
    ∧ ∃ ms', cfgAt (reconcileServer exampleOptionalTop (some exampleOptionalTopOld)) "A" []
        = some (.group (some false) ms') :=
  have h := preserve_choices exampleOptionalTop exampleOptionalTopOld
    (sameShapeMods_cfgAt exampleOptionalTopOld (reconcileServer exampleOptionalTop none)
      (by decide))
  ⟨h.1 "A" ["C"] false (by decide),
    h.2.1 "A" [] false [("C", .flag false)] (by decide)
      ⟨.group (some true) [("C", .flag true)], by decide, by decide⟩⟩

/-! ### Reconciling a reconciled configuration (C1, C4) -/

/-- C1 fails on the code: for `exampleNestedRequired` the configuration reconciled from nothing
gives the required sub-module `B` an object without `value`; reconciling against that
configuration stores `value: true` in the object of `B`, so the second result differs from the
first. -/
theorem reconcile_not_idempotent :
    reconcileServer exampleNestedRequired none
        = [("A", .group (some true) [("B", .group none [("C", .flag true)])])]
    ∧ reconcileServer exampleNestedRequired (some (reconcileServer exampleNestedRequired none))
        = [("A", .group (some true) [("B", .group (some true) [("C", .flag true)])])]
    ∧ reconcileServer exampleNestedRequired (some (reconcileServer exampleNestedRequired none))
        ≠ reconcileServer exampleNestedRequired none := by
  decide

/-- C4 fails on the code: `B` is a required module, and after reconciling
`exampleNestedRequired` against a prior configuration that has an entry for `B`, the object
of `B` holds `value: true`: the recursive call of `mergeModConfiguration` omits its third
argument and so treats the required `B` as optional. -/
theorem nested_required_group_gets_value :
    (node "B" true true [leaf "C" false true]).isRequired = true
    ∧ cfgAt (reconcileServer exampleNestedRequired none) "A" ["B"]
        = some (.group none [("C", .flag true)])
    ∧ cfgAt (reconcileServer exampleNestedRequired (some exampleNestedRequiredOld)) "A" ["B"]
        = some (.group (some true) [("C", .flag false)]) := by
  decide

/-! ### Agreement of the two embeddings of `mergeModConfiguration` -/

theorem objGet_toJValMods (ms : ModMap) (key : String) :
    objGet (ConfigValue.toJValMods ms) key = (objGet ms key).map ConfigValue.toJVal := by
  induction ms with
  | nil => simp [ConfigValue.toJValMods, objGet]
  | cons e rest ih =>
    obtain ⟨k, v⟩ := e
    by_cases h : k = key <;> simp [ConfigValue.toJValMods, objGet, h, ih]

theorem toJVal_notNullish (v : ConfigValue) : v.toJVal.notNullish = true := by
  cases v with
  | flag b => simp [ConfigValue.toJVal, JVal.notNullish]
  | group x ms => cases x <;> simp [ConfigValue.toJVal, JVal.notNullish]

theorem toJVal_group_typeof (x : Option Bool) (ms : ModMap) :
    (ConfigValue.toJVal (.group x ms)).typeof = "object" := by
  cases x <;> simp [ConfigValue.toJVal, JVal.typeof]

theorem toJVal_group_mods (x : Option Bool) (ms : ModMap) :
    (ConfigValue.toJVal (.group x ms)).getProp "mods" = .ok (.obj (ConfigValue.toJValMods ms)) := by
  cases x <;> simp [ConfigValue.toJVal, JVal.getProp, objGet]

theorem toJVal_group_value (x : Option Bool) (ms : ModMap) :
    (ConfigValue.toJVal (.group x ms)).getProp "value"
      = .ok (match x with
          | some b => .bool b
          | none => .undefined) := by
  cases x <;> simp [ConfigValue.toJVal, JVal.getProp, objGet]

mutual
theorem mergeModConfigurationDyn_toJVal : ∀ (o n : ConfigValue) (nReq : Bool),
    mergeModConfigurationDyn o.toJVal n nReq
      = .ok (mergeModConfiguration o n nReq).toJVal
  | .flag b, .flag d, _ => by
      simp [mergeModConfigurationDyn, mergeModConfiguration, ConfigValue.toJVal, JVal.typeof]
  | .flag b, .group v ms, nReq => by
      cases nReq <;> cases v <;>
        simp [mergeModConfigurationDyn, mergeModConfiguration, ConfigValue.toJVal, JVal.typeof]
  | .group ov oms, .flag d, _ => by
      cases ov <;>
        simp [mergeModConfigurationDyn, mergeModConfiguration, ConfigValue.toJVal, JVal.typeof,
          JVal.getProp, objGet]
  | .group ov oms, .group v ms, nReq => by
      have hl := mergeLoopDyn_toJVal ov oms ms
      simp only [mergeModConfigurationDyn, mergeModConfiguration, toJVal_group_typeof,
        toJVal_group_value, hl]
      cases nReq <;> cases ov <;> cases v <;> simp [JVal.typeof, ConfigValue.toJVal]
theorem mergeLoopDyn_toJVal : ∀ (ov : Option Bool) (oms ms : ModMap),
    mergeLoopDyn (ConfigValue.toJVal (.group ov oms)) ms
      = .ok (ConfigValue.toJValMods (mergeLoop oms ms))
  | _, _, [] => by simp [mergeLoopDyn, mergeLoop, ConfigValue.toJValMods]
  | ov, oms, (k, nv) :: rest => by
      have hrest := mergeLoopDyn_toJVal ov oms rest
      cases hg : objGet oms k with
      | none =>
        simp only [mergeLoopDyn, mergeLoop, toJVal_group_mods, hrest, hg]
        simp [JVal.getProp, objGet_toJValMods, hg, JVal.notNullish, ConfigValue.toJValMods]
      | some o' =>
        have hm := mergeModConfigurationDyn_toJVal o' nv false
        simp only [mergeLoopDyn, mergeLoop, toJVal_group_mods, hrest, hg]
        simp [JVal.getProp, objGet_toJValMods, hg, toJVal_notNullish, hm,
          ConfigValue.toJValMods]
end

/-! ### Merge on a malformed prior value (C9) -/

/-- C9 fails on the code: the old value `{}` (an object without `mods`) merged into the
default of `exampleA`, the object `{mods: {C: true}, value: false}`, reads `o.mods["C"]` with
`o.mods` undefined and raises a `TypeError`. -/
theorem merge_raises_on_object_without_mods :
    scanOptionalSubModules exampleA.getSubModules exampleA
        = .group (some false) [("C", .flag true)]
    ∧ mergeModConfigurationDyn (.obj [])
        (scanOptionalSubModules exampleA.getSubModules exampleA) false
        = .error .typeError := by
  constructor
  · decide
  · rfl

end UiBinder
